import Mathlib

/-!
Shallow embedding of the UI focus/event subsystem and the logging utility of
the ActiasFW framework (headers under src/vendor/include/ActiasFW).  The
repository snapshot contains only the header files; methods whose bodies live
in absent translation units are modelled from the specification, and each such
definition carries a doc comment starting with "Modelled from the spec:".
C++ pointers are modelled as heap addresses (Nat) into a total heap function;
null pointers become Option.none.
-/

namespace ActiasFW

/-- Direction selector for the four neighbour slots of a component, mirroring
the four entries of the `m_neighbours[4]` array declared at UISystem.h:223 and
exposed through getNeighbourLeft/Right/Below/Above. -/
inductive Direction
  | left
  | right
  | below
  | above
deriving DecidableEq, Repr

/-- Game controller handle from Input.h; `unknown` mirrors the
`CONTROLLER_UNKNOWN` sentinel used as the default at UISystem.h:472. -/
inductive Controller
  | unknown
  | joystick (slot : Nat)
deriving DecidableEq, Repr

/-- State of a `UIComponent` (UISystem.h lines 211-225).  The field defaults
are exactly the C++ in-class member initializers: null parent pointer, ID 0,
disabled, invisible, four null neighbour pointers, not highlighted. -/
structure UIComponent where
  m_parent : Option Nat := none
  m_ID : Nat := 0
  m_enabled : Bool := false
  m_visible : Bool := false
  m_neighbourLeft : Option Nat := none
  m_neighbourRight : Option Nat := none
  m_neighbourBelow : Option Nat := none
  m_neighbourAbove : Option Nat := none
  m_highlighted : Bool := false
deriving DecidableEq, Repr

/-- A default-constructed `UIComponent`: every field takes its in-class
initializer from UISystem.h lines 211-225. -/
def UIComponent.defaultComponent : UIComponent := {}

/-- Neighbour lookup in a given direction, the read side of the
`m_neighbours[4]` array (getNeighbourLeft/Right/Below/Above,
UISystem.h lines 158-197). -/
def UIComponent.neighbour (c : UIComponent) : Direction → Option Nat
  | Direction.left => c.m_neighbourLeft
  | Direction.right => c.m_neighbourRight
  | Direction.below => c.m_neighbourBelow
  | Direction.above => c.m_neighbourAbove

/-- State of a `UIGroup` (UISystem.h lines 445-479).  Components are held by
pointer (heap address); rendering-only members (shader, font, colors, sprite)
are omitted because no claim observes them. -/
structure UIGroup where
  m_initialized : Bool := false
  m_ID : Nat := 0
  m_components : List Nat := []
  m_nextID : Nat := 0
  m_enabled : Bool := false
  m_visible : Bool := false
  m_controller : Controller := Controller.unknown
  m_initialComponent : Option Nat := none
deriving DecidableEq, Repr

/-- A group together with the heap of components its pointers refer to.
The heap is total, as every C++ pointer dereference presumes validity. -/
structure UIState where
  heap : Nat → UIComponent
  group : UIGroup

/-- Write one heap cell, leaving all other components untouched. -/
def UIState.setComponent (s : UIState) (p : Nat) (c : UIComponent) : UIState :=
  { s with heap := fun q => if q = p then c else s.heap q }

/-- Modelled from the spec: body of `UIGroup::addComponent` (declared at
UISystem.h:323; the defining translation unit is absent from the snapshot).
Spec section 4.2: fails (returns false) when the component is already present
by pointer identity; otherwise assigns the next sequential id, sets the
component's parent listener to this group, appends it to the collection, and
returns true. -/
def UIGroup.addComponent (s : UIState) (p : Nat) : Bool × UIState :=
  if p ∈ s.group.m_components then
    (false, s)
  else
    (true,
      { heap := fun q => if q = p then
            { s.heap p with
              m_ID := s.group.m_nextID, m_parent := some s.group.m_ID }
          else s.heap q,
        group := { s.group with
          m_components := s.group.m_components ++ [p],
          m_nextID := s.group.m_nextID + 1 } })

/-- Modelled from the spec: body of `UIGroup::removeComponent` (declared at
UISystem.h:329; defining translation unit absent).  Spec section 4.2: fails if
the component is not present; otherwise erases it by pointer identity, and
does not touch neighbour links stored in other components. -/
def UIGroup.removeComponent (s : UIState) (p : Nat) : Bool × UIState :=
  if p ∈ s.group.m_components then
    (true, { s with group := { s.group with
        m_components := s.group.m_components.erase p } })
  else
    (false, s)

/-- The currently highlighted component of the group: the first component in
collection order whose `m_highlighted` flag (UISystem.h:225) is set.  In all
reachable states at most one component is highlighted, so the choice of the
first is immaterial. -/
def highlightedComponent (s : UIState) : Option Nat :=
  s.group.m_components.find? fun p => (s.heap p).m_highlighted

/-- Write the highlighted flag of the component at address p
(UIComponent::setHighlighted, UISystem.h:209). -/
def setHighlighted (s : UIState) (p : Nat) (b : Bool) : UIState :=
  s.setComponent p { s.heap p with m_highlighted := b }

/-- Modelled from the spec: the controller-focus portion of
`UIGroup::processInput` (declared at UISystem.h:279; the defining translation
unit is absent).  This models the arrival of one directional edge-press from
the group's bound controller while the group is enabled (spec section 4.2,
steps 1-2, and the focus state machine): when no component is highlighted,
highlight the configured initial component (UISystem.h:475); otherwise move
the highlight to the current component's neighbour in that direction when
that neighbour exists and is enabled, and leave the highlight unchanged
otherwise (no wraparound). -/
def UIGroup.processDirectionalInput (s : UIState) (d : Direction) : UIState :=
  if s.group.m_enabled = true ∧ s.group.m_controller ≠ Controller.unknown then
    match highlightedComponent s with
    | none =>
        match s.group.m_initialComponent with
        | none => s
        | some i => setHighlighted s i true
    | some a =>
        match (s.heap a).neighbour d with
        | none => s
        | some b =>
            if (s.heap b).m_enabled = true then
              setHighlighted (setHighlighted s a false) b true
            else s
  else s

/-- At most one component of the group is highlighted. -/
def UniqueHighlight (s : UIState) : Prop :=
  ∀ p ∈ s.group.m_components, ∀ q ∈ s.group.m_components,
    (s.heap p).m_highlighted = true → (s.heap q).m_highlighted = true → p = q

/-- Run a sequence of directional inputs from the bound controller. -/
def runDirectionalInputs (s : UIState) (ds : List Direction) : UIState :=
  ds.foldl UIGroup.processDirectionalInput s

/-- Modelled from the spec: body of `UIGroup::destroy` (declared at
UISystem.h:296; the defining translation unit is absent).  Spec sections 4.2
and 8: destroy() calls destroy() on every owned component, then releases the
group's own resources and clears the initialization flag (UISystem.h:447);
a second call on an already-destroyed group is a no-op returning the defined
failure status, mirroring the double-call guard the spec requires for
initialize.  Destruction of a leaf component is modelled as resetting it to
its default-constructed state, always succeeding, since the spec names no
observable failure condition for leaf widgets. -/
def UIGroup.destroy (s : UIState) : Bool × UIState :=
  if s.group.m_initialized = true then
    (true,
      { heap := fun q => if q ∈ s.group.m_components then
            UIComponent.defaultComponent
          else s.heap q,
        group := { s.group with m_initialized := false } })
  else
    (false, s)

/-- Run a sequence of addComponent calls from a starting state, keeping the
state after each call and discarding the boolean results. -/
def addAll (s : UIState) (ps : List Nat) : UIState :=
  ps.foldl (fun t p => (UIGroup.addComponent t p).2) s

/-- The getID() values of the group's components, in collection order
(insertion order, per UISystem.h:453). -/
def groupIDs (s : UIState) : List Nat :=
  s.group.m_components.map fun p => (s.heap p).m_ID

/-- Invariant tying assigned ids to the `m_nextID` counter (UISystem.h:455):
ids are strictly increasing in collection order and all below the counter. -/
def IDInvariant (s : UIState) : Prop :=
  (groupIDs s).Pairwise (· < ·) ∧
  ∀ p ∈ s.group.m_components, (s.heap p).m_ID < s.group.m_nextID

/-- Concrete one-component state used to instantiate theorems with
hypotheses: the heap is default everywhere and the group holds pointer 0. -/
def exState : UIState :=
  { heap := fun _ => UIComponent.defaultComponent,
    group := { m_components := [0], m_nextID := 1 } }

/-- Concrete fresh state: default heap, default (empty) group. -/
def exState0 : UIState :=
  { heap := fun _ => UIComponent.defaultComponent, group := {} }

/-- Concrete two-component state in which component 1 holds a left-neighbour
link to component 0. -/
def exState2 : UIState :=
  { heap := fun q => if q = 1 then { m_neighbourLeft := some 0 }
      else UIComponent.defaultComponent,
    group := { m_components := [0, 1], m_nextID := 2 } }

/-- Concrete focus-machine state: enabled components 0 and 1 with 0's right
neighbour wired to 1, group enabled, controller bound, initial component 0,
nothing highlighted yet. -/
def exFocusState : UIState :=
  { heap := fun q =>
      if q = 0 then { m_enabled := true, m_neighbourRight := some 1 }
      else if q = 1 then { m_enabled := true }
      else UIComponent.defaultComponent,
    group := { m_components := [0, 1], m_nextID := 2, m_enabled := true,
               m_controller := Controller.joystick 0,
               m_initialComponent := some 0 } }

/-- Concrete initialized group state for the destroy witness. -/
def exInitState : UIState :=
  { heap := fun _ => UIComponent.defaultComponent,
    group := { m_initialized := true, m_components := [0], m_nextID := 1 } }

/-- Event id for button clicks, UIComponents.h:154. -/
def UIButton.ClickedEventID : Nat := 2

/-- Event id for a switch turning off, UIComponents.h:231. -/
def UISwitch.OffEventID : Nat := 0

/-- Event id for a switch turning on, UIComponents.h:233. -/
def UISwitch.OnEventID : Nat := 1

/-- Event id for carousel value changes, UIComponents.h:779. -/
def UICarousel.ValueSetEventID : Nat := 0

/-- Event id for list box value changes, UIComponents.h:1075. -/
def UIListBox.ValueSetEventID : Nat := 0

/-- State of a `UICarousel` (UIComponents.h lines 974-991): its own component
id, the value list, the current value index, and the component ids of the two
owned buttons; rendering-only members are omitted. -/
structure UICarousel where
  m_ID : Nat := 0
  m_values : List String := []
  m_currentValueIndex : Nat := 0
  m_lastButtonID : Nat := 0
  m_nextButtonID : Nat := 1
deriving DecidableEq, Repr

/-- Modelled from the spec: body of `UICarousel::UIEvent` (declared at
UIComponents.h:1058; the defining translation unit is absent).  Spec section
4.3: on a Clicked event from the next (resp. last) button, increment (resp.
decrement) the current-value index modularly over the value list length —
next from the last index wraps to 0, last from index 0 wraps to the last
index — then re-emit ValueSetEventID to the carousel's own parent listener
with the carousel's own component id.  The second result is the list of
events sent to the parent listener. -/
def UICarousel.UIEvent (c : UICarousel) (componentID eventID : Nat) :
    UICarousel × List (Nat × Nat) :=
  if eventID = UIButton.ClickedEventID then
    if componentID = c.m_nextButtonID then
      ({ c with m_currentValueIndex :=
            (c.m_currentValueIndex + 1) % c.m_values.length },
       [(c.m_ID, UICarousel.ValueSetEventID)])
    else if componentID = c.m_lastButtonID then
      ({ c with m_currentValueIndex :=
            (c.m_currentValueIndex + c.m_values.length - 1)
              % c.m_values.length },
       [(c.m_ID, UICarousel.ValueSetEventID)])
    else (c, [])
  else (c, [])

/-- Concrete carousel over values A, B, C for the wraparound witness. -/
def exCarousel : UICarousel :=
  { m_ID := 4, m_values := ["A", "B", "C"], m_currentValueIndex := 2,
    m_lastButtonID := 0, m_nextButtonID := 1 }

/-- The same carousel at current index 0. -/
def exCarousel0 : UICarousel :=
  { m_ID := 4, m_values := ["A", "B", "C"], m_currentValueIndex := 0,
    m_lastButtonID := 0, m_nextButtonID := 1 }

/-- State of one `UISwitch` owned by a list box (UIComponents.h lines
228-269): its component id and on/off state; only the members the list box
logic observes are modelled. -/
structure UISwitch where
  m_ID : Nat := 0
  m_on : Bool := false
deriving DecidableEq, Repr

/-- State of a `UIListBox` (UIComponents.h lines 1227-1243): its own
component id and its owned switches `m_values`, one per value. -/
structure UIListBox where
  m_ID : Nat := 0
  m_values : List UISwitch := []
deriving DecidableEq, Repr

/-- Position of the first switch that is on, if any. -/
def firstOnIndex : List UISwitch → Option Nat
  | [] => none
  | sw :: rest =>
      if sw.m_on = true then some 0 else (firstOnIndex rest).map (· + 1)

/-- Modelled from the spec: `UIListBox::getCurrentValueIndex` (declared at
UIComponents.h:1161; the defining translation unit is absent): the index of
the currently selected value, or -1 when no value is selected.  Selection is
carried by the switches' on/off state, the list box's current-value-index
bookkeeping. -/
def UIListBox.getCurrentValueIndex (lb : UIListBox) : Int :=
  match firstOnIndex lb.m_values with
  | some i => (i : Int)
  | none => -1

/-- Modelled from the spec: body of `UIListBox::UIEvent` (declared at
UIComponents.h:1250; the defining translation unit is absent).  Spec section
4.3: on receiving an On event from one of its switches, the list box forces
every other switch to Off (mutual exclusivity) and re-emits ValueSetEventID
to its own parent listener with its own component id; events other than On
are not described by the spec and are modelled as producing no state change
and no event.  The second result is the list of events sent to the parent
listener. -/
def UIListBox.UIEvent (lb : UIListBox) (componentID eventID : Nat) :
    UIListBox × List (Nat × Nat) :=
  if eventID = UISwitch.OnEventID then
    ({ lb with m_values := lb.m_values.map fun sw =>
          if sw.m_ID = componentID then sw else { sw with m_on := false } },
     [(lb.m_ID, UIListBox.ValueSetEventID)])
  else (lb, [])

/-- Concrete list box with three switches: switch 0 is on (the old
selection) and switch 1 has just been toggled on as well. -/
def exListBox : UIListBox :=
  { m_ID := 7,
    m_values := [{ m_ID := 0, m_on := true }, { m_ID := 1, m_on := true },
      { m_ID := 2 }] }

/-- State of the `LogManager` (Logging.h lines 104-113).  The `std::map` of
output file streams is modelled as its ordered association list of file
names paired with each stream's good() status; stream contents are not part
of the manager's state, so writes are returned as effects. -/
structure LogManager where
  m_initialized : Bool := false
  m_enabled : Bool := false
  m_outputFiles : List (String × Bool) := []
  m_timestampFormat : String := ""
deriving DecidableEq, Repr

/-- Embedding of `LogManager::write` (Logging.h lines 41-52, defined inline
in the header): when the manager is enabled, send the datum to standard
output and then to each registered output file stream that reports good(),
in map iteration order; otherwise do nothing.  The result is the manager
after the call, the list of strings sent to standard output, and the list of
(file name, datum) writes performed on output files. -/
def LogManager.write (lm : LogManager) (data : String) :
    LogManager × List String × List (String × String) :=
  if lm.m_enabled = true then
    (lm, [data],
      (lm.m_outputFiles.filter fun f => f.2).map fun f => (f.1, data))
  else
    (lm, [], [])

/-- Concrete enabled log manager with one good and one failed output file. -/
def exLog : LogManager :=
  { m_enabled := true,
    m_outputFiles := [("a.log", true), ("b.log", false)] }

/-- Concrete disabled log manager. -/
def exLogOff : LogManager :=
  { m_enabled := false, m_outputFiles := [("a.log", true)] }

end ActiasFW

namespace ActiasFW

/-- C10: a default-constructed UIComponent starts detached and inert: parent
listener unset, id 0, disabled, invisible, not highlighted, and all four
directional neighbour links unset. -/
theorem uicomponent_default_detached_inert :
    UIComponent.defaultComponent.m_parent = none ∧
    UIComponent.defaultComponent.m_ID = 0 ∧
    UIComponent.defaultComponent.m_enabled = false ∧
    UIComponent.defaultComponent.m_visible = false ∧
    UIComponent.defaultComponent.m_highlighted = false ∧
    UIComponent.defaultComponent.neighbour Direction.left = none ∧
    UIComponent.defaultComponent.neighbour Direction.right = none ∧
    UIComponent.defaultComponent.neighbour Direction.below = none ∧
    UIComponent.defaultComponent.neighbour Direction.above = none := by
  refine ⟨rfl, rfl, rfl, rfl, rfl, rfl, rfl, rfl, rfl⟩

/-- C4: addComponent returns false and leaves the group unchanged (hence the
component count unchanged) when the component is already present by pointer
identity; otherwise it appends the component, assigns it the next sequential
id, sets its parent listener to this group, and returns true. -/
theorem addComponent_spec (s : UIState) (p : Nat) :
    (p ∈ s.group.m_components → UIGroup.addComponent s p = (false, s)) ∧
    (p ∉ s.group.m_components →
      (UIGroup.addComponent s p).1 = true ∧
      (UIGroup.addComponent s p).2.group.m_components
        = s.group.m_components ++ [p] ∧
      ((UIGroup.addComponent s p).2.heap p).m_ID = s.group.m_nextID ∧
      ((UIGroup.addComponent s p).2.heap p).m_parent = some s.group.m_ID ∧
      (UIGroup.addComponent s p).2.group.m_nextID = s.group.m_nextID + 1) := by
  constructor
  · intro hmem
    simp [UIGroup.addComponent, hmem]
  · intro hmem
    simp [UIGroup.addComponent, hmem, UIState.setComponent]

/-- Witness for C4: in the concrete state holding pointer 0, re-adding 0
fails and adding the fresh pointer 1 succeeds with id 1. -/
theorem addComponent_spec_witness :
    UIGroup.addComponent exState 0 = (false, exState) ∧
    (UIGroup.addComponent exState 1).1 = true ∧
    ((UIGroup.addComponent exState 1).2.heap 1).m_ID = 1 := by
  refine ⟨(addComponent_spec exState 0).1 (by decide), ?_, ?_⟩
  · exact ((addComponent_spec exState 1).2 (by decide)).1
  · exact ((addComponent_spec exState 1).2 (by decide)).2.2.1

/-- Helper: addComponent on an already-present pointer is the identity with a
false result. -/
theorem addComponent_mem {s : UIState} {p : Nat}
    (hmem : p ∈ s.group.m_components) :
    UIGroup.addComponent s p = (false, s) := by
  simp [UIGroup.addComponent, hmem]

/-- Helper: heap cells after a successful addComponent. -/
theorem addComponent_not_mem_heap {s : UIState} {p : Nat}
    (hmem : p ∉ s.group.m_components) (q : Nat) :
    (UIGroup.addComponent s p).2.heap q
      = if q = p then
          { s.heap p with
            m_ID := s.group.m_nextID, m_parent := some s.group.m_ID }
        else s.heap q := by
  simp [UIGroup.addComponent, hmem]

/-- Helper: group state after a successful addComponent. -/
theorem addComponent_not_mem_group {s : UIState} {p : Nat}
    (hmem : p ∉ s.group.m_components) :
    (UIGroup.addComponent s p).2.group
      = { s.group with
          m_components := s.group.m_components ++ [p],
          m_nextID := s.group.m_nextID + 1 } := by
  simp [UIGroup.addComponent, hmem]

/-- Helper: a single addComponent call preserves the id invariant. -/
theorem addComponent_preserves_IDInvariant (s : UIState) (p : Nat)
    (h : IDInvariant s) : IDInvariant (UIGroup.addComponent s p).2 := by
  obtain ⟨h1, h2⟩ := h
  by_cases hmem : p ∈ s.group.m_components
  · rw [addComponent_mem hmem]
    exact ⟨h1, h2⟩
  · have hmap : (s.group.m_components.map
        fun q => ((UIGroup.addComponent s p).2.heap q).m_ID)
        = groupIDs s := by
      unfold groupIDs
      apply List.map_congr_left
      intro q hq
      have hqp : q ≠ p := fun hqp => hmem (hqp ▸ hq)
      rw [addComponent_not_mem_heap hmem, if_neg hqp]
    have hIDs : groupIDs (UIGroup.addComponent s p).2
        = groupIDs s ++ [s.group.m_nextID] := by
      unfold groupIDs
      rw [addComponent_not_mem_group hmem]
      simp only [List.map_append, List.map_cons, List.map_nil]
      rw [hmap, addComponent_not_mem_heap hmem, if_pos rfl]
      rfl
    constructor
    · rw [hIDs, List.pairwise_append]
      refine ⟨h1, List.pairwise_singleton _ _, ?_⟩
      intro x hx y hy
      rw [List.mem_singleton] at hy
      subst hy
      obtain ⟨q, hq, rfl⟩ := List.mem_map.mp hx
      exact h2 q hq
    · intro q hq
      rw [addComponent_not_mem_group hmem] at hq
      rw [addComponent_not_mem_group hmem, addComponent_not_mem_heap hmem]
      rcases List.mem_append.mp hq with hq | hq
      · have hqp : q ≠ p := fun hqp => hmem (hqp ▸ hq)
        rw [if_neg hqp]
        exact Nat.lt_succ_of_lt (h2 q hq)
      · rw [List.mem_singleton] at hq
        subst hq
        rw [if_pos rfl]
        exact Nat.lt_succ_self _

/-- C5: after any sequence of addComponent calls from a state satisfying the
id invariant (for instance a fresh group with no components), the getID()
values of the group's components are strictly increasing in collection order
(which equals add order, since successful adds append) and pairwise
distinct. -/
theorem groupIDs_strictly_increasing (s : UIState) (h : IDInvariant s)
    (ps : List Nat) :
    (groupIDs (addAll s ps)).Pairwise (· < ·) ∧
    (groupIDs (addAll s ps)).Nodup := by
  have hinv : IDInvariant (addAll s ps) := by
    induction ps generalizing s with
    | nil => exact h
    | cons p ps ih =>
        simp only [addAll, List.foldl_cons]
        exact ih _ (addComponent_preserves_IDInvariant s p h)
  exact ⟨hinv.1, hinv.1.imp Nat.ne_of_lt⟩

/-- Witness for C5: adding pointers 5, 7, 5, 2 to a fresh group (the repeated
5 fails) yields strictly increasing, pairwise distinct component ids. -/
theorem groupIDs_strictly_increasing_witness :
    (groupIDs (addAll exState0 [5, 7, 5, 2])).Pairwise (· < ·) ∧
    (groupIDs (addAll exState0 [5, 7, 5, 2])).Nodup :=
  groupIDs_strictly_increasing exState0 (by constructor <;> decide) [5, 7, 5, 2]

/-- C6: removeComponent on a component not in the group returns false and
leaves the state unchanged; on a present component it erases that component
by pointer identity and returns true, while leaving the heap untouched, so
neighbour links in other components that referenced the removed component
are not cleared. -/
theorem removeComponent_spec (s : UIState) (p : Nat) :
    (p ∉ s.group.m_components → UIGroup.removeComponent s p = (false, s)) ∧
    (p ∈ s.group.m_components →
      (UIGroup.removeComponent s p).1 = true ∧
      (UIGroup.removeComponent s p).2.group.m_components
        = s.group.m_components.erase p ∧
      (UIGroup.removeComponent s p).2.heap = s.heap ∧
      ∀ q d, ((UIGroup.removeComponent s p).2.heap q).neighbour d
        = (s.heap q).neighbour d) := by
  constructor
  · intro h
    simp [UIGroup.removeComponent, h]
  · intro h
    simp [UIGroup.removeComponent, h]

/-- Witness for C6: removing absent pointer 3 fails and changes nothing;
removing present pointer 0 succeeds, yet component 1 still holds its stale
left-neighbour link to the removed component 0. -/
theorem removeComponent_spec_witness :
    UIGroup.removeComponent exState 3 = (false, exState) ∧
    (UIGroup.removeComponent exState2 0).1 = true ∧
    ((UIGroup.removeComponent exState2 0).2.heap 1).neighbour Direction.left
      = some 0 := by
  refine ⟨(removeComponent_spec exState 3).1 (by decide),
    ((removeComponent_spec exState2 0).2 (by decide)).1, ?_⟩
  rw [((removeComponent_spec exState2 0).2 (by decide)).2.2.2 1 Direction.left]
  rfl

/-- Helper: find? returns the unique element satisfying the predicate. -/
theorem find?_eq_some_of_unique {α : Type} {pred : α → Bool} {l : List α}
    {b : α} (hb : b ∈ l) (hpb : pred b = true)
    (huniq : ∀ x ∈ l, pred x = true → x = b) :
    l.find? pred = some b := by
  induction l with
  | nil => cases hb
  | cons a t ih =>
      by_cases ha : pred a = true
      · have hab : a = b := huniq a (List.mem_cons_self a t) ha
        subst hab
        rw [List.find?_cons_of_pos _ ha]
      · rw [List.find?_cons_of_neg _ ha]
        rcases List.mem_cons.mp hb with rfl | hb'
        · exact absurd hpb ha
        · exact ih hb' fun x hx => huniq x (List.mem_cons_of_mem _ hx)

/-- Helper: heap cells after setHighlighted. -/
theorem setHighlighted_heap (s : UIState) (p : Nat) (b : Bool) (q : Nat) :
    (setHighlighted s p b).heap q
      = if q = p then { s.heap p with m_highlighted := b } else s.heap q :=
  rfl

/-- Helper: the group is untouched by setHighlighted. -/
theorem setHighlighted_group (s : UIState) (p : Nat) (b : Bool) :
    (setHighlighted s p b).group = s.group :=
  rfl

/-- Helper: one directional input preserves the at-most-one-highlight
invariant. -/
theorem processDirectionalInput_preserves_UniqueHighlight (s : UIState)
    (d : Direction) (h : UniqueHighlight s) :
    UniqueHighlight (UIGroup.processDirectionalInput s d) := by
  by_cases hgate :
      s.group.m_enabled = true ∧ s.group.m_controller ≠ Controller.unknown
  · rcases hfind : highlightedComponent s with _ | a
    · rcases hinit : s.group.m_initialComponent with _ | i
      · simpa [UIGroup.processDirectionalInput, hgate, hfind, hinit] using h
      · have hs' : UIGroup.processDirectionalInput s d
            = setHighlighted s i true := by
          simp [UIGroup.processDirectionalInput, hgate, hfind, hinit]
        rw [hs']
        have hnone := List.find?_eq_none.mp hfind
        intro p hp q hq hp1 hq1
        simp only [setHighlighted_group] at hp hq
        rw [setHighlighted_heap] at hp1 hq1
        by_cases hpi : p = i
        · by_cases hqi : q = i
          · rw [hpi, hqi]
          · rw [if_neg hqi] at hq1
            exact absurd hq1 (by simpa using hnone q hq)
        · rw [if_neg hpi] at hp1
          exact absurd hp1 (by simpa using hnone p hp)
    · have hfind2 : s.group.m_components.find?
          (fun p => (s.heap p).m_highlighted) = some a := hfind
      have haMem : a ∈ s.group.m_components :=
        List.mem_of_find?_eq_some hfind2
      have haHl : (s.heap a).m_highlighted = true := by
        simpa using List.find?_some hfind2
      rcases hnb : (s.heap a).neighbour d with _ | b
      · simpa [UIGroup.processDirectionalInput, hgate, hfind, hnb] using h
      · by_cases hen : (s.heap b).m_enabled = true
        · have hs' : UIGroup.processDirectionalInput s d
              = setHighlighted (setHighlighted s a false) b true := by
            simp [UIGroup.processDirectionalInput, hgate, hfind, hnb, hen]
          rw [hs']
          have key : ∀ r ∈ s.group.m_components,
              ((setHighlighted (setHighlighted s a false) b true).heap r).m_highlighted
                = true → r = b := by
            intro r hr hr1
            by_cases hrb : r = b
            · exact hrb
            · rw [setHighlighted_heap, if_neg hrb, setHighlighted_heap] at hr1
              by_cases hra : r = a
              · rw [if_pos hra] at hr1
                simp at hr1
              · rw [if_neg hra] at hr1
                exact absurd (h r hr a haMem hr1 haHl) hra
          intro p hp q hq hp1 hq1
          simp only [setHighlighted_group] at hp hq
          rw [key p hp hp1, key q hq hq1]
        · simpa [UIGroup.processDirectionalInput, hgate, hfind, hnb, hen]
            using h
  · simpa [UIGroup.processDirectionalInput, hgate] using h

/-- Helper: a whole sequence of directional inputs preserves the invariant. -/
theorem runDirectionalInputs_preserves_UniqueHighlight (ds : List Direction) :
    ∀ s : UIState, UniqueHighlight s →
      UniqueHighlight (runDirectionalInputs s ds) := by
  induction ds with
  | nil => intro s h; exact h
  | cons d ds ih =>
      intro s h
      exact ih _ (processDirectionalInput_preserves_UniqueHighlight s d h)

/-- C7: starting from any state of the group in which no component is
highlighted, every state reachable through directional controller inputs has
at most one highlighted component; the invariant is enforced by the group's
input-processing step. -/
theorem at_most_one_highlighted (s : UIState)
    (h0 : ∀ p ∈ s.group.m_components, (s.heap p).m_highlighted = false)
    (ds : List Direction) :
    UniqueHighlight (runDirectionalInputs s ds) := by
  apply runDirectionalInputs_preserves_UniqueHighlight
  intro p hp q hq hp1 _
  rw [h0 p hp] at hp1
  cases hp1

/-- Witness for C7: two directional inputs on the concrete focus state leave
at most one component highlighted. -/
theorem at_most_one_highlighted_witness :
    UniqueHighlight
      (runDirectionalInputs exFocusState [Direction.below, Direction.right]) :=
  at_most_one_highlighted exFocusState (by decide)
    [Direction.below, Direction.right]

/-- C1: for a bound-controller, enabled group whose highlight flags mark at
most one component: when nothing is highlighted, a directional input
highlights the configured initial component; when component a is
highlighted, a directional input moves the highlight to a's neighbour in
that direction exactly when that neighbour exists and is enabled, and
otherwise leaves the whole state (in particular the highlighted component)
unchanged — there is no wraparound. -/
theorem processInput_focus_transitions (s : UIState) (d : Direction)
    (henabled : s.group.m_enabled = true)
    (hctrl : s.group.m_controller ≠ Controller.unknown)
    (huniq : UniqueHighlight s) :
    (highlightedComponent s = none →
      ∀ i, s.group.m_initialComponent = some i →
        ((UIGroup.processDirectionalInput s d).heap i).m_highlighted = true ∧
        (i ∈ s.group.m_components →
          highlightedComponent (UIGroup.processDirectionalInput s d)
            = some i)) ∧
    (∀ a, highlightedComponent s = some a →
      (∀ b, (s.heap a).neighbour d = some b → (s.heap b).m_enabled = true →
        b ∈ s.group.m_components →
        highlightedComponent (UIGroup.processDirectionalInput s d)
          = some b) ∧
      ((s.heap a).neighbour d = none →
        UIGroup.processDirectionalInput s d = s) ∧
      (∀ b, (s.heap a).neighbour d = some b → (s.heap b).m_enabled = false →
        UIGroup.processDirectionalInput s d = s)) := by
  have hgate :
      s.group.m_enabled = true ∧ s.group.m_controller ≠ Controller.unknown :=
    ⟨henabled, hctrl⟩
  constructor
  · intro hfind i hinit
    have hs' : UIGroup.processDirectionalInput s d
        = setHighlighted s i true := by
      simp [UIGroup.processDirectionalInput, hgate, hfind, hinit]
    have hnone := List.find?_eq_none.mp hfind
    constructor
    · rw [hs', setHighlighted_heap, if_pos rfl]
    · intro hiMem
      rw [hs']
      unfold highlightedComponent
      rw [setHighlighted_group]
      apply find?_eq_some_of_unique hiMem
      · rw [setHighlighted_heap, if_pos rfl]
      · intro x hx hx1
        by_cases hxi : x = i
        · exact hxi
        · rw [setHighlighted_heap, if_neg hxi] at hx1
          exact absurd hx1 (by simpa using hnone x hx)
  · intro a hfind
    have hfind2 : s.group.m_components.find?
        (fun p => (s.heap p).m_highlighted) = some a := hfind
    have haMem : a ∈ s.group.m_components := List.mem_of_find?_eq_some hfind2
    have haHl : (s.heap a).m_highlighted = true := by
      simpa using List.find?_some hfind2
    refine ⟨?_, ?_, ?_⟩
    · intro b hnb hen hbMem
      have hs' : UIGroup.processDirectionalInput s d
          = setHighlighted (setHighlighted s a false) b true := by
        simp [UIGroup.processDirectionalInput, hgate, hfind, hnb, hen]
      rw [hs']
      unfold highlightedComponent
      rw [setHighlighted_group, setHighlighted_group]
      apply find?_eq_some_of_unique hbMem
      · rw [setHighlighted_heap, if_pos rfl]
      · intro x hx hx1
        by_cases hxb : x = b
        · exact hxb
        · rw [setHighlighted_heap, if_neg hxb, setHighlighted_heap] at hx1
          by_cases hxa : x = a
          · rw [if_pos hxa] at hx1
            simp at hx1
          · rw [if_neg hxa] at hx1
            exact absurd (huniq x hx a haMem hx1 haHl) hxa
    · intro hnb
      simp [UIGroup.processDirectionalInput, hgate, hfind, hnb]
    · intro b hnb hen
      simp [UIGroup.processDirectionalInput, hgate, hfind, hnb, hen]

/-- Witness for C1: on the concrete focus state, the first directional input
highlights the initial component 0, and a following right input moves the
highlight to 0's right neighbour 1. -/
theorem processInput_focus_transitions_witness :
    ((UIGroup.processDirectionalInput exFocusState Direction.below).heap 0).m_highlighted
      = true ∧
    highlightedComponent
      (UIGroup.processDirectionalInput
        (UIGroup.processDirectionalInput exFocusState Direction.below)
        Direction.right)
      = some 1 := by
  constructor
  · exact (((processInput_focus_transitions exFocusState Direction.below
      (by decide) (by decide)
      (by unfold UniqueHighlight; decide)).1 (by decide) 0 (by decide))).1
  · exact (((processInput_focus_transitions
      (UIGroup.processDirectionalInput exFocusState Direction.below)
      Direction.right (by decide) (by decide)
      (by unfold UniqueHighlight; decide)).2 0
      (by decide)).1 1 (by decide) (by decide) (by decide))

/-- Helper: destroy on a group whose initialization flag is clear is a no-op
returning false. -/
theorem destroy_not_initialized {s : UIState}
    (h : s.group.m_initialized = false) :
    UIGroup.destroy s = (false, s) := by
  unfold UIGroup.destroy
  rw [if_neg (by rw [h]; exact Bool.false_ne_true)]

/-- C8: after a successful destroy, a second destroy call on the
already-destroyed group is a no-op returning the defined failure status and
leaving the state unchanged. -/
theorem destroy_twice_noop (s : UIState)
    (h : s.group.m_initialized = true) :
    UIGroup.destroy ((UIGroup.destroy s).2)
      = (false, (UIGroup.destroy s).2) := by
  apply destroy_not_initialized
  unfold UIGroup.destroy
  rw [if_pos h]

/-- Witness for C8: double destroy on the concrete initialized group. -/
theorem destroy_twice_noop_witness :
    UIGroup.destroy ((UIGroup.destroy exInitState).2)
      = (false, (UIGroup.destroy exInitState).2) :=
  destroy_twice_noop exInitState (by decide)

/-- Helper: cast of the Nat modular decrement to the integer
(index - 1) mod length. -/
theorem nat_pred_mod_cast (i n : Nat) (hn : 0 < n) :
    (((i + n - 1) % n : Nat) : Int) = ((i : Int) - 1) % (n : Int) := by
  have h2 : (((i + n - 1) % n : Nat) : Int)
      = ((i + n - 1 : Nat) : Int) % ((n : Nat) : Int) := Int.natCast_mod _ _
  have h1 : ((i + n - 1 : Nat) : Int) = (i : Int) + (n : Int) - 1 := by
    omega
  have h3 : (i : Int) + (n : Int) - 1 = (i : Int) - 1 + (n : Int) * 1 := by
    ring
  rw [h2, h1, h3, Int.add_mul_emod_self_left]

/-- C3: for a carousel with a non-empty value list and in-range current
index, a Clicked event from the next button sets the current-value index to
(index + 1) mod length and one from the last button sets it to
(index - 1) mod length (as integers) — in particular next from the last
index wraps to 0 and last from index 0 wraps to the last index — and each
click re-emits exactly one ValueSetEventID to the carousel's own parent
listener with its own component id. -/
theorem carousel_click_spec (c : UICarousel)
    (hlen : 0 < c.m_values.length)
    (hidx : c.m_currentValueIndex < c.m_values.length)
    (hbtn : c.m_lastButtonID ≠ c.m_nextButtonID) :
    ((c.UIEvent c.m_nextButtonID UIButton.ClickedEventID).1.m_currentValueIndex
        = (c.m_currentValueIndex + 1) % c.m_values.length ∧
      (c.UIEvent c.m_nextButtonID UIButton.ClickedEventID).2
        = [(c.m_ID, UICarousel.ValueSetEventID)]) ∧
    (((c.UIEvent c.m_lastButtonID UIButton.ClickedEventID).1.m_currentValueIndex : Int)
        = ((c.m_currentValueIndex : Int) - 1) % (c.m_values.length : Int) ∧
      (c.UIEvent c.m_lastButtonID UIButton.ClickedEventID).2
        = [(c.m_ID, UICarousel.ValueSetEventID)]) ∧
    (c.m_currentValueIndex = c.m_values.length - 1 →
      (c.UIEvent c.m_nextButtonID UIButton.ClickedEventID).1.m_currentValueIndex
        = 0) ∧
    (c.m_currentValueIndex = 0 →
      (c.UIEvent c.m_lastButtonID UIButton.ClickedEventID).1.m_currentValueIndex
        = c.m_values.length - 1) := by
  have hnext : c.UIEvent c.m_nextButtonID UIButton.ClickedEventID
      = ({ c with m_currentValueIndex :=
            (c.m_currentValueIndex + 1) % c.m_values.length },
         [(c.m_ID, UICarousel.ValueSetEventID)]) := by
    simp [UICarousel.UIEvent]
  have hlast : c.UIEvent c.m_lastButtonID UIButton.ClickedEventID
      = ({ c with m_currentValueIndex :=
            (c.m_currentValueIndex + c.m_values.length - 1)
              % c.m_values.length },
         [(c.m_ID, UICarousel.ValueSetEventID)]) := by
    simp [UICarousel.UIEvent, hbtn]
  refine ⟨⟨?_, ?_⟩, ⟨?_, ?_⟩, ?_, ?_⟩
  · rw [hnext]
  · rw [hnext]
  · rw [hlast]
    exact nat_pred_mod_cast c.m_currentValueIndex c.m_values.length hlen
  · rw [hlast]
  · intro h0
    rw [hnext]
    show (c.m_currentValueIndex + 1) % c.m_values.length = 0
    rw [h0]
    have h1 : c.m_values.length - 1 + 1 = c.m_values.length := by omega
    rw [h1, Nat.mod_self]
  · intro h0
    rw [hlast]
    show (c.m_currentValueIndex + c.m_values.length - 1) % c.m_values.length
        = c.m_values.length - 1
    rw [h0]
    have h1 : 0 + c.m_values.length - 1 = c.m_values.length - 1 := by omega
    rw [h1, Nat.mod_eq_of_lt (by omega)]

/-- Witness for C3: on values A, B, C, clicking next at index 2 wraps to
index 0, clicking last at index 0 wraps to index 2, and the next click
emits exactly one ValueSetEventID with the carousel's own id. -/
theorem carousel_click_spec_witness :
    (exCarousel.UIEvent 1 UIButton.ClickedEventID).1.m_currentValueIndex = 0 ∧
    (exCarousel0.UIEvent 0 UIButton.ClickedEventID).1.m_currentValueIndex = 2 ∧
    (exCarousel.UIEvent 1 UIButton.ClickedEventID).2
      = [(4, UICarousel.ValueSetEventID)] := by
  have h := carousel_click_spec exCarousel (by decide) (by decide) (by decide)
  have h0 := carousel_click_spec exCarousel0 (by decide) (by decide) (by decide)
  exact ⟨h.2.2.1 (by decide), h0.2.2.2 (by decide), h.1.2⟩

/-- Helper: in a list of switches with pairwise distinct ids, positions with
equal ids coincide. -/
theorem switch_id_inj {l : List UISwitch}
    (hid : (l.map UISwitch.m_ID).Nodup) {i k : Nat} {a b : UISwitch}
    (ha : l[i]? = some a) (hb : l[k]? = some b)
    (hab : a.m_ID = b.m_ID) : i = k := by
  obtain ⟨hi, hga⟩ := List.getElem?_eq_some_iff.mp ha
  obtain ⟨hk, hgb⟩ := List.getElem?_eq_some_iff.mp hb
  have hi2 : i < (l.map UISwitch.m_ID).length := by
    rw [List.length_map]
    exact hi
  have hk2 : k < (l.map UISwitch.m_ID).length := by
    rw [List.length_map]
    exact hk
  have hm : (l.map UISwitch.m_ID)[i] = (l.map UISwitch.m_ID)[k] := by
    rw [List.getElem_map, List.getElem_map, hga, hgb]
    exact hab
  exact hid.getElem_inj_iff.mp hm

/-- Helper: firstOnIndex finds the unique on switch. -/
theorem firstOnIndex_eq_some_of_unique {l : List UISwitch} {j : Nat}
    {swj : UISwitch} (hj : l[j]? = some swj) (hon : swj.m_on = true)
    (huniq : ∀ i sw, l[i]? = some sw → sw.m_on = true → i = j) :
    firstOnIndex l = some j := by
  induction l generalizing j with
  | nil => simp at hj
  | cons sw rest ih =>
      cases j with
      | zero =>
          rw [List.getElem?_cons_zero] at hj
          injection hj with h
          subst h
          simp [firstOnIndex, hon]
      | succ k =>
          rw [List.getElem?_cons_succ] at hj
          have hsw : ¬sw.m_on = true := fun h =>
            Nat.succ_ne_zero k (huniq 0 sw (by simp) h).symm
          have huniq' : ∀ i sw1, rest[i]? = some sw1 → sw1.m_on = true
              → i = k := by
            intro i sw1 hi h
            have := huniq (i + 1) sw1
              (by rw [List.getElem?_cons_succ]; exact hi) h
            omega
          simp only [firstOnIndex]
          rw [if_neg hsw, ih hj huniq']
          rfl

/-- C2: when one of the list box's switches (with pairwise distinct switch
ids) delivers an On event while it is on, the list box turns every other
switch off — so at most one switch is on afterwards — sets its current-value
index to the index of that switch's value, and emits exactly one
ValueSetEventID event to its own parent listener with its own component
id. -/
theorem listbox_on_event_spec (lb : UIListBox) (componentID j : Nat)
    (swj : UISwitch)
    (hid : (lb.m_values.map UISwitch.m_ID).Nodup)
    (hj : lb.m_values[j]? = some swj)
    (hcid : swj.m_ID = componentID)
    (hon : swj.m_on = true) :
    (∀ (i : Nat) (sw : UISwitch), i ≠ j →
      (lb.UIEvent componentID UISwitch.OnEventID).1.m_values[i]? = some sw →
      sw.m_on = false) ∧
    (∀ (i k : Nat) (sw sw1 : UISwitch),
      (lb.UIEvent componentID UISwitch.OnEventID).1.m_values[i]? = some sw →
      (lb.UIEvent componentID UISwitch.OnEventID).1.m_values[k]? = some sw1 →
      sw.m_on = true → sw1.m_on = true → i = k) ∧
    (lb.UIEvent componentID UISwitch.OnEventID).1.getCurrentValueIndex
      = (j : Int) ∧
    (lb.UIEvent componentID UISwitch.OnEventID).2
      = [(lb.m_ID, UIListBox.ValueSetEventID)] := by
  have hev1 : (lb.UIEvent componentID UISwitch.OnEventID).1.m_values
      = lb.m_values.map fun sw =>
          if sw.m_ID = componentID then sw
          else { sw with m_on := false } := by
    simp [UIListBox.UIEvent]
  have hget : ∀ (i : Nat) (sw : UISwitch),
      (lb.UIEvent componentID UISwitch.OnEventID).1.m_values[i]? = some sw →
      ∃ sw0 : UISwitch, lb.m_values[i]? = some sw0 ∧
        sw = (if sw0.m_ID = componentID then sw0
          else { sw0 with m_on := false }) := by
    intro i sw hsw
    rw [hev1, List.getElem?_map] at hsw
    rcases h0 : lb.m_values[i]? with _ | sw0
    · rw [h0] at hsw
      simp at hsw
    · rw [h0] at hsw
      simp at hsw
      exact ⟨sw0, rfl, hsw.symm⟩
  have hkey : ∀ i sw,
      (lb.UIEvent componentID UISwitch.OnEventID).1.m_values[i]? = some sw →
      sw.m_on = true → i = j := by
    intro i sw hsw hswon
    obtain ⟨sw0, h0, rfl⟩ := hget i sw hsw
    by_cases hc : sw0.m_ID = componentID
    · exact switch_id_inj hid h0 hj (by rw [hc, hcid])
    · rw [if_neg hc] at hswon
      simp at hswon
  refine ⟨?_, ?_, ?_, ?_⟩
  · intro i sw hij hsw
    by_cases hswon : sw.m_on = true
    · exact absurd (hkey i sw hsw hswon) hij
    · simpa using hswon
  · intro i k sw sw1 hsw hsw1 hswon hsw1on
    rw [hkey i sw hsw hswon, hkey k sw1 hsw1 hsw1on]
  · have hj2 : (lb.UIEvent componentID UISwitch.OnEventID).1.m_values[j]?
        = some swj := by
      rw [hev1, List.getElem?_map, hj]
      simp [hcid]
    have hfoi : firstOnIndex
        (lb.UIEvent componentID UISwitch.OnEventID).1.m_values = some j :=
      firstOnIndex_eq_some_of_unique hj2 hon hkey
    unfold UIListBox.getCurrentValueIndex
    rw [hfoi]
  · simp [UIListBox.UIEvent]

/-- Witness for C2: in the concrete list box where switch 0 was selected and
switch 1 has just turned on, the On event from switch 1 makes index 1 the
current value and emits exactly one ValueSetEventID with the list box's own
id 7. -/
theorem listbox_on_event_spec_witness :
    (exListBox.UIEvent 1 UISwitch.OnEventID).1.getCurrentValueIndex
      = (1 : Int) ∧
    (exListBox.UIEvent 1 UISwitch.OnEventID).2
      = [(7, UIListBox.ValueSetEventID)] := by
  have h := listbox_on_event_spec exListBox 1 1 { m_ID := 1, m_on := true }
    (by decide) (by decide) (by decide) (by decide)
  exact ⟨h.2.2.1, h.2.2.2⟩

/-- C9: write produces no output at all when the log manager is disabled;
when enabled it sends the datum to standard output and to exactly those
registered output file streams that are in a good state, and the manager's
own state is unchanged in both cases. -/
theorem logmanager_write_spec (lm : LogManager) (data : String) :
    ((LogManager.write lm data).1 = lm) ∧
    (lm.m_enabled = false →
      (LogManager.write lm data).2.1 = [] ∧
      (LogManager.write lm data).2.2 = []) ∧
    (lm.m_enabled = true →
      (LogManager.write lm data).2.1 = [data] ∧
      ∀ name text, ((name, text) ∈ (LogManager.write lm data).2.2
        ↔ (text = data ∧ (name, true) ∈ lm.m_outputFiles))) := by
  refine ⟨?_, ?_, ?_⟩
  · by_cases h : lm.m_enabled = true <;> simp [LogManager.write, h]
  · intro h
    simp [LogManager.write, h]
  · intro h
    have hw : LogManager.write lm data
        = (lm, [data],
          (lm.m_outputFiles.filter fun f => f.2).map fun f => (f.1, data)) := by
      simp [LogManager.write, h]
    refine ⟨by rw [hw], ?_⟩
    intro name text
    rw [hw]
    constructor
    · intro hmem
      simp only [List.mem_map] at hmem
      obtain ⟨x, hx, hpair⟩ := hmem
      obtain ⟨a, b⟩ := x
      obtain ⟨hx1, hx2⟩ := List.mem_filter.mp hx
      have hb : b = true := by simpa using hx2
      subst hb
      simp only [Prod.mk.injEq] at hpair
      obtain ⟨h1, h2⟩ := hpair
      subst h1
      exact ⟨h2.symm, hx1⟩
    · rintro ⟨rfl, hmem⟩
      simp only [List.mem_map]
      exact ⟨(name, true), List.mem_filter.mpr ⟨hmem, rfl⟩, rfl⟩

/-- Witness for C9: the disabled manager writes nothing; the enabled one
writes the datum to stdout and to the good file but not to the failed
one. -/
theorem logmanager_write_spec_witness :
    (LogManager.write exLogOff "x").2.1 = [] ∧
    (LogManager.write exLog "x").2.1 = ["x"] ∧
    ("a.log", "x") ∈ (LogManager.write exLog "x").2.2 ∧
    ¬("b.log", "x") ∈ (LogManager.write exLog "x").2.2 := by
  have hoff := logmanager_write_spec exLogOff "x"
  have hon := logmanager_write_spec exLog "x"
  refine ⟨(hoff.2.1 (by decide)).1, (hon.2.2 (by decide)).1, ?_, ?_⟩
  · exact ((hon.2.2 (by decide)).2 "a.log" "x").mpr ⟨rfl, by decide⟩
  · intro hmem
    have := ((hon.2.2 (by decide)).2 "b.log" "x").mp hmem
    have hbad : (("b.log", true) : String × Bool) ∈ exLog.m_outputFiles :=
      this.2
    revert hbad
    decide

end ActiasFW
